import Mathlib

/-!
Verification of the caching and locking core of the Store-dc repository
(src/ext/cache_manager.py and src/ext/base_handler.py), as a shallow
embedding: Python dicts become association lists, datetimes become
natural-number instants (isoformat strings are order-isomorphic to the
instants they denote), the sqlite cache_table becomes an association
list of rows with a TEXT value column, and store failures are injected
through an explicit flag standing for a raised SQLiteError.

Model scope: cached payloads are JSON scalars (null, booleans,
integers, plain unescaped strings; no floats, arrays or objects),
which is all the claims exercise.
-/

namespace StoreDC

/-- Python values that can be stored in the cache (model scope: scalars). -/
inductive PyVal where
  | pyNone
  | pyBool (b : Bool)
  | pyInt (n : Int)
  | pyStr (s : String)
deriving Repr, DecidableEq

/-! ### json model (collaborator of cache_manager.py)

`jsonLoads` models Python json.loads restricted to the model scope
(null, true, false, integers, plain strings); `jsonDumps` models
json.dumps on those values. -/

def skipWs : List Char → List Char
  | [] => []
  | c :: cs => if c = ' ' ∨ c = '\t' ∨ c = '\n' ∨ c = '\r' then skipWs cs else c :: cs

def takeDigits : List Char → List Char × List Char
  | [] => ([], [])
  | c :: cs =>
    if c.isDigit then
      let p := takeDigits cs
      (c :: p.1, p.2)
    else ([], c :: cs)

def digitsToNat (ds : List Char) : Nat :=
  ds.foldl (fun a c => a * 10 + (c.toNat - 48)) 0

def parseStringBody : List Char → List Char → Option (String × List Char)
  | [], _ => none
  | c :: cs, acc =>
    if c = '"' then some (String.mk acc, cs)
    else if c = '\\' then none
    else parseStringBody cs (acc ++ [c])

def parseVal : List Char → Option (PyVal × List Char)
  | input =>
    match skipWs input with
    | 'n' :: 'u' :: 'l' :: 'l' :: rest => some (.pyNone, rest)
    | 't' :: 'r' :: 'u' :: 'e' :: rest => some (.pyBool true, rest)
    | 'f' :: 'a' :: 'l' :: 's' :: 'e' :: rest => some (.pyBool false, rest)
    | '"' :: rest =>
      match parseStringBody rest [] with
      | some (s, r) => some (.pyStr s, r)
      | none => none
    | '-' :: rest =>
      let p := takeDigits rest
      if p.1.isEmpty then none else some (.pyInt (-(digitsToNat p.1 : Int)), p.2)
    | c :: rest =>
      if c.isDigit then
        let p := takeDigits (c :: rest)
        some (.pyInt (digitsToNat p.1), p.2)
      else none
    | [] => none

def jsonLoads (s : String) : Option PyVal :=
  match parseVal s.toList with
  | some (v, rest) => if skipWs rest = [] then some v else none
  | none => none

def jsonDumps : PyVal → String
  | .pyNone => "null"
  | .pyBool true => "true"
  | .pyBool false => "false"
  | .pyInt n => toString n
  | .pyStr s => "\"" ++ s ++ "\""

example : jsonLoads "1" = some (.pyInt 1) := by decide
example : jsonLoads "hello" = none := by decide
example : jsonLoads "true" = some (.pyBool true) := by decide

/-! ### association lists: Python dict / sqlite table with a key column -/

def alookup {α : Type} : List (String × α) → String → Option α
  | [], _ => none
  | (k0, v) :: rest, k => if k0 = k then some v else alookup rest k

def aremove {α : Type} : List (String × α) → String → List (String × α)
  | [], _ => []
  | (k0, v) :: rest, k => if k0 = k then aremove rest k else (k0, v) :: aremove rest k

def ainsert {α : Type} (l : List (String × α)) (k : String) (v : α) : List (String × α) :=
  (k, v) :: aremove l k

@[simp] theorem alookup_nil {α : Type} (k : String) : alookup ([] : List (String × α)) k = none := rfl

@[simp] theorem alookup_cons {α : Type} (k0 k : String) (v : α) (rest : List (String × α)) :
    alookup ((k0, v) :: rest) k = if k0 = k then some v else alookup rest k := rfl

theorem alookup_aremove_self {α : Type} (l : List (String × α)) (k : String) :
    alookup (aremove l k) k = none := by
  induction l with
  | nil => rfl
  | cons p rest ih =>
    obtain ⟨k0, v⟩ := p
    by_cases h : k0 = k
    · simpa [aremove, h] using ih
    · simpa [aremove, h] using ih

theorem alookup_aremove_ne {α : Type} (l : List (String × α)) (k k1 : String) (hne : k1 ≠ k) :
    alookup (aremove l k) k1 = alookup l k1 := by
  induction l with
  | nil => rfl
  | cons p rest ih =>
    obtain ⟨k0, v⟩ := p
    by_cases h : k0 = k
    · have hk1 : ¬ k = k1 := fun hh => hne hh.symm
      simpa [aremove, h, hk1] using ih
    · by_cases h1 : k0 = k1
      · simp [aremove, h, h1, hne]
      · simpa [aremove, h, h1] using ih

@[simp] theorem alookup_ainsert_self {α : Type} (l : List (String × α)) (k : String) (v : α) :
    alookup (ainsert l k v) k = some v := by
  simp [ainsert]

theorem alookup_ainsert_ne {α : Type} (l : List (String × α)) (k k1 : String) (v : α)
    (hne : k1 ≠ k) : alookup (ainsert l k v) k1 = alookup l k1 := by
  have : k ≠ k1 := fun h => hne h.symm
  simp [ainsert, this, alookup_aremove_ne l k k1 hne]

/-! ### CacheManager model (src/ext/cache_manager.py)

The memory tier stores decoded values with an absolute expiry; the
durable tier (cache_table) stores TEXT values with an absolute expiry.
`dbFails = true` injects a SQLiteError into every durable-tier
statement, matching the except-branches of the source. -/

/-- One memory_cache entry: \x7b'value': ..., 'expires_at': ...\x7d. -/
structure CacheEntry where
  value : PyVal
  expiresAt : Nat
deriving Repr, DecidableEq

/-- One cache_table row: (value TEXT, expires_at TIMESTAMP). -/
structure DbRow where
  value : String
  expiresAt : Nat
deriving Repr, DecidableEq

/-- The two tiers of CacheManager. -/
structure CacheState where
  memoryCache : List (String × CacheEntry)
  dbCache : List (String × DbRow)
deriving Repr, DecidableEq

/-- CacheManager._is_valid: cache_data['expires_at'] > datetime.utcnow(). -/
def isValid (e : CacheEntry) (now : Nat) : Bool := decide (now < e.expiresAt)

/-- The database half of CacheManager.get: point lookup, strict expiry
check `expires_at > utcnow()`, json decode with promotion into memory on
success, raw string on decode failure, lazy delete of an expired row;
a SQLiteError yields the default with no state change. -/
def cacheGetDb (st : CacheState) (dbFails : Bool) (key : String) (default : PyVal) (now : Nat) :
    PyVal × CacheState :=
  if dbFails then (default, st)
  else
    match alookup st.dbCache key with
    | some row =>
      if now < row.expiresAt then
        match jsonLoads row.value with
        | some v =>
          (v, { st with memoryCache := ainsert st.memoryCache key ⟨v, row.expiresAt⟩ })
        | none => (.pyStr row.value, st)
      else
        (default, { st with dbCache := aremove st.dbCache key })
    | none => (default, st)

/-- CacheManager.get: memory tier first (evicting an expired hit), then
the durable tier. -/
def cacheGet (st : CacheState) (dbFails : Bool) (key : String) (default : PyVal) (now : Nat) :
    PyVal × CacheState :=
  match alookup st.memoryCache key with
  | some e =>
    if isValid e now then (e.value, st)
    else cacheGetDb { st with memoryCache := aremove st.memoryCache key } dbFails key default now
  | none => cacheGetDb st dbFails key default now

/-- The durable-write conversion in CacheManager.set: str/int/float/bool
values are passed through raw (json.dumps only otherwise); sqlite3 adapts
a bool to an int, and the TEXT affinity of cache_table.value renders any
numeric as its decimal text. -/
def toDbText : PyVal → String
  | .pyStr s => s
  | .pyBool b => if b then "1" else "0"
  | .pyInt n => toString n
  | v => jsonDumps v

/-- CacheManager.set: always writes the memory tier with now + expires_in;
with permanent=True additionally upserts into cache_table, returning False
if that durable write raises. -/
def cacheSet (st : CacheState) (dbFails : Bool) (key : String) (v : PyVal)
    (expiresIn : Nat) (permanent : Bool) (now : Nat) : Bool × CacheState :=
  let expiresAt := now + expiresIn
  let st1 := { st with memoryCache := ainsert st.memoryCache key ⟨v, expiresAt⟩ }
  if permanent then
    if dbFails then (false, st1)
    else (true, { st1 with dbCache := ainsert st1.dbCache key ⟨toDbText v, expiresAt⟩ })
  else (true, st1)

/-- CacheManager.delete: removes the key from the memory tier, then from
cache_table; a durable failure returns False (memory removal stands). -/
def cacheDelete (st : CacheState) (dbFails : Bool) (key : String) : Bool × CacheState :=
  let st1 := { st with memoryCache := aremove st.memoryCache key }
  if dbFails then (false, st1)
  else (true, { st1 with dbCache := aremove st1.dbCache key })

/-- CacheManager.cleanup: collects the memory keys with
expires_at <= current_time and deletes them, then issues
DELETE FROM cache_table WHERE expires_at < current_time (strict);
a durable failure leaves the memory sweep in place. -/
def cacheCleanup (st : CacheState) (dbFails : Bool) (now : Nat) : CacheState :=
  let expiredKeys :=
    (st.memoryCache.filter (fun p => decide (p.2.expiresAt ≤ now))).map Prod.fst
  let st1 := { st with memoryCache := expiredKeys.foldl (fun m k => aremove m k) st.memoryCache }
  if dbFails then st1
  else { st1 with dbCache := st1.dbCache.filter (fun p => !(decide (p.2.expiresAt < now))) }

/-- One tier segment of get_stats: total / valid / expired counts. -/
structure TierStats where
  total : Nat
  valid : Nat
  expired : Nat
deriving Repr, DecidableEq

/-- The memory segment of get_stats. -/
def memTierStats (st : CacheState) (now : Nat) : TierStats :=
  let total := st.memoryCache.length
  let valid := (st.memoryCache.filter (fun p => isValid p.2 now)).length
  ⟨total, valid, total - valid⟩

/-- The durable segment of get_stats: COUNT(*) and COUNT WHERE expires_at > now. -/
def dbTierStats (st : CacheState) (now : Nat) : TierStats :=
  let total := st.dbCache.length
  let valid := (st.dbCache.filter (fun p => decide (now < p.2.expiresAt))).length
  ⟨total, valid, total - valid⟩

/-- CacheManager.get_stats: the durable queries sit in a try block with no
SQLiteError handler, so a durable failure escapes to the outer handler,
which returns the empty dict (modelled as none). -/
def cacheGetStats (st : CacheState) (dbFails : Bool) (now : Nat) :
    Option (TierStats × TierStats) :=
  if dbFails then none
  else some (memTierStats st now, dbTierStats st now)

/-! ### Theorems about the cache read path -/

/-- Every entry the memory tier holds for the key is expired (vacuously
true on a memory miss). -/
def memMissOrExpired (st : CacheState) (key : String) (now : Nat) : Prop :=
  ∀ e, alookup st.memoryCache key = some e → e.expiresAt ≤ now

/-- Behaviour of the durable half of get: an unexpired row is decoded
(raw string on decode failure), an expired row yields the default and is
purged, an absent row yields the default unchanged. -/
theorem cacheGetDb_spec (st : CacheState) (key : String) (default : PyVal) (now : Nat) :
    (∀ row, alookup st.dbCache key = some row →
        (now < row.expiresAt →
          (cacheGetDb st false key default now).1 = (jsonLoads row.value).getD (.pyStr row.value)) ∧
        (row.expiresAt ≤ now →
          (cacheGetDb st false key default now).1 = default ∧
          alookup (cacheGetDb st false key default now).2.dbCache key = none)) ∧
    (alookup st.dbCache key = none → cacheGetDb st false key default now = (default, st)) := by
  constructor
  · intro row hrow
    constructor
    · intro hlt
      cases hdec : jsonLoads row.value with
      | some v => simp [cacheGetDb, hrow, hlt, hdec]
      | none => simp [cacheGetDb, hrow, hlt, hdec]
    · intro hge
      have hnlt : ¬ now < row.expiresAt := by omega
      simp [cacheGetDb, hrow, hnlt, alookup_aremove_self]
  · intro hnone
    simp [cacheGetDb, hnone]

/-- C1. TTL correctness of the cache read path: an unexpired memory entry
is returned as is; when every entry for the key is expired or absent in
both tiers, get returns the default and an expired durable row is lazily
purged; an unexpired durable row (after a memory miss or expiry) is
returned as its decoded stored value. An expired durable entry is never
returned, even if cleanup has never run. -/
theorem cacheGet_ttl_correct (st : CacheState) (key : String) (default : PyVal) (now : Nat) :
    (∀ e, alookup st.memoryCache key = some e → now < e.expiresAt →
        cacheGet st false key default now = (e.value, st)) ∧
    (memMissOrExpired st key now →
      (∀ row, alookup st.dbCache key = some row →
          (now < row.expiresAt →
            (cacheGet st false key default now).1 = (jsonLoads row.value).getD (.pyStr row.value)) ∧
          (row.expiresAt ≤ now →
            (cacheGet st false key default now).1 = default ∧
            alookup (cacheGet st false key default now).2.dbCache key = none)) ∧
      (alookup st.dbCache key = none → (cacheGet st false key default now).1 = default)) := by
  constructor
  · intro e he hlt
    simp [cacheGet, he, isValid, hlt]
  · intro hmiss
    cases hm : alookup st.memoryCache key with
    | some e =>
      have hexp : e.expiresAt ≤ now := hmiss e hm
      have hnlt : ¬ now < e.expiresAt := by omega
      have hred : cacheGet st false key default now
          = cacheGetDb { st with memoryCache := aremove st.memoryCache key } false key default now := by
        simp [cacheGet, hm, isValid, hnlt]
      have hspec := cacheGetDb_spec { st with memoryCache := aremove st.memoryCache key }
        key default now
      constructor
      · intro row hrow
        have h1 := hspec.1 row hrow
        constructor
        · intro hlt
          rw [hred]
          exact h1.1 hlt
        · intro hge
          rw [hred]
          exact h1.2 hge
      · intro hnone
        rw [hred, (hspec.2 hnone)]
    | none =>
      have hred : cacheGet st false key default now = cacheGetDb st false key default now := by
        simp [cacheGet, hm]
      have hspec := cacheGetDb_spec st key default now
      constructor
      · intro row hrow
        have h1 := hspec.1 row hrow
        constructor
        · intro hlt
          rw [hred]
          exact h1.1 hlt
        · intro hge
          rw [hred]
          exact h1.2 hge
      · intro hnone
        rw [hred, (hspec.2 hnone)]

/-- Concrete state for the C1 witness: one unexpired memory entry. -/
def c1State : CacheState := ⟨[("k", ⟨.pyInt 7, 10⟩)], []⟩

/-- C1 witness: at time 3, before the expiry 10, get returns the stored 7. -/
theorem cacheGet_ttl_correct_witness :
    cacheGet c1State false "k" .pyNone 3 = (.pyInt 7, c1State) :=
  (cacheGet_ttl_correct c1State "k" .pyNone 3).1 ⟨.pyInt 7, 10⟩ (by decide) (by decide)

/-- C4. Partial failure of set with permanent=True: the durable write
fails, set returns False, but the memory write already happened, so any
later get within the expiry window returns the value from memory
(whatever the durable tier then does). -/
theorem cacheSet_durable_failure_memory_serves
    (st : CacheState) (key : String) (v : PyVal) (expiresIn now now2 : Nat)
    (d : Bool) (default : PyVal) (h : now2 < now + expiresIn) :
    (cacheSet st true key v expiresIn true now).1 = false ∧
    (cacheGet (cacheSet st true key v expiresIn true now).2 d key default now2).1 = v := by
  constructor
  · rfl
  · simp [cacheSet, cacheGet, isValid, h]

/-- C4 witness: a failing permanent set of 42 at time 0 with expiry 5
returns False, and a get at time 4 still returns 42. -/
theorem cacheSet_durable_failure_memory_serves_witness :
    (cacheSet ⟨[], []⟩ true "b" (.pyInt 42) 5 true 0).1 = false ∧
    (cacheGet (cacheSet ⟨[], []⟩ true "b" (.pyInt 42) 5 true 0).2 false "b" .pyNone 4).1
      = .pyInt 42 :=
  cacheSet_durable_failure_memory_serves ⟨[], []⟩ "b" (.pyInt 42) 5 0 4 false .pyNone (by decide)

/-- C7. Idempotent delete: for every state and key (present or absent),
delete with a working durable store returns True and leaves the key in
neither tier; only a durable failure returns False. The model is total,
so no exception can escape. -/
theorem cacheDelete_idempotent (st : CacheState) (key : String) :
    (cacheDelete st false key).1 = true ∧
    alookup (cacheDelete st false key).2.memoryCache key = none ∧
    alookup (cacheDelete st false key).2.dbCache key = none ∧
    (cacheDelete st true key).1 = false := by
  refine ⟨rfl, ?_, ?_, rfl⟩ <;> simp [cacheDelete, alookup_aremove_self]

/-- The empty two-tier state. -/
def emptyCache : CacheState := ⟨[], []⟩

/-- State after set("flag", True, expires_in=60, permanent=True) at time 0. -/
def c2AfterSet : CacheState := (cacheSet emptyCache false "flag" (.pyBool true) 60 true 0).2

/-- Simulated process restart: memory tier empty, durable tier intact. -/
def c2AfterRestart : CacheState := { c2AfterSet with memoryCache := [] }

/-- C2 (code bug). The durable round trip of the boolean True: set keeps
the bool raw (it passes the str/int/float/bool isinstance check), sqlite
adapts it to the integer 1 and the TEXT column stores "1", so after a
restart get decodes it back as the integer 1, not True. -/
theorem cacheSet_bool_roundtrip_breaks :
    (cacheSet emptyCache false "flag" (.pyBool true) 60 true 0).1 = true ∧
    (cacheGet c2AfterRestart false "flag" .pyNone 10).1 = .pyInt 1 ∧
    ¬ (cacheGet c2AfterRestart false "flag" .pyNone 10).1 = .pyBool true := by
  decide

/-- C10. Decode failure on the durable tier: with the key absent from
memory and an unexpired durable row whose text is not valid json, get
returns the raw stored string and the whole state is unchanged — nothing
is promoted into memory, so a subsequent get reads the durable tier
again. -/
theorem cacheGet_decode_failure_no_promotion
    (st : CacheState) (key : String) (default : PyVal) (now : Nat) (row : DbRow)
    (hmem : alookup st.memoryCache key = none)
    (hdb : alookup st.dbCache key = some row)
    (hvalid : now < row.expiresAt)
    (hdec : jsonLoads row.value = none) :
    cacheGet st false key default now = (.pyStr row.value, st) := by
  simp [cacheGet, hmem, cacheGetDb, hdb, hvalid, hdec]

/-- Concrete state for the C10 witness: an unexpired durable row holding
the non-json text "hello". -/
def c10State : CacheState := ⟨[], [("k", ⟨"hello", 10⟩)]⟩

/-- C10 witness: get at time 3 returns the raw string and changes nothing. -/
theorem cacheGet_decode_failure_no_promotion_witness :
    cacheGet c10State false "k" .pyNone 3 = (.pyStr "hello", c10State) :=
  cacheGet_decode_failure_no_promotion c10State "k" .pyNone 3 ⟨"hello", 10⟩
    (by decide) (by decide) (by decide) (by decide)

/-! ### get_stats degradation (C5) -/

/-- Concrete state for the C5 counterexample: one unexpired memory entry. -/
def c5State : CacheState := ⟨[("k", ⟨.pyInt 1, 10⟩)], []⟩

/-- C5 counterexample: with a nonempty memory tier and a failing durable
query, get_stats returns the empty dict — the memory segment is not
returned, contrary to the claim (the durable queries have no SQLiteError
handler, so the outer except returns \x7b\x7d). -/
theorem cacheGetStats_db_failure_cex : cacheGetStats c5State true 0 = none := rfl

/-- C5 (amended). get_stats never raises, but on a durable-tier failure
it returns the empty dict, omitting the memory segment as well as the
durable one; only on success does it return both segments, each with
valid + expired = total. -/
theorem cacheGetStats_degradation_amended (st : CacheState) (now : Nat) :
    cacheGetStats st true now = none ∧
    cacheGetStats st false now = some (memTierStats st now, dbTierStats st now) ∧
    (memTierStats st now).valid + (memTierStats st now).expired = (memTierStats st now).total ∧
    (dbTierStats st now).valid + (dbTierStats st now).expired = (dbTierStats st now).total := by
  refine ⟨rfl, rfl, ?_, ?_⟩
  · have h := List.length_filter_le (fun p => isValid p.2 now) st.memoryCache
    simp only [memTierStats]
    omega
  · have h := List.length_filter_le (fun p => decide (now < p.2.expiresAt)) st.dbCache
    simp only [dbTierStats]
    omega

/-! ### cleanup sweep (C6) -/

theorem aremove_eq_filter {α : Type} (l : List (String × α)) (k : String) :
    aremove l k = l.filter (fun p => decide (p.1 ≠ k)) := by
  induction l with
  | nil => rfl
  | cons p rest ih =>
    obtain ⟨k0, v⟩ := p
    by_cases h : k0 = k <;> simp [aremove, h, ih, List.filter_cons]

theorem foldl_aremove_eq_filter {α : Type} (ks : List String) (l : List (String × α)) :
    ks.foldl (fun m k => aremove m k) l = l.filter (fun p => decide (p.1 ∉ ks)) := by
  induction ks generalizing l with
  | nil => simp
  | cons k ks ih =>
    have : (aremove l k).filter (fun p => decide (p.1 ∉ ks))
        = l.filter (fun p => decide (p.1 ∉ k :: ks)) := by
      rw [aremove_eq_filter, List.filter_filter]
      apply List.filter_congr
      intro p _
      simp [List.mem_cons, not_or, Bool.and_comm]
    rw [List.foldl_cons, ih, this]

theorem fst_nodup_inj {α : Type} {l : List (String × α)} (h : (l.map Prod.fst).Nodup)
    {p q : String × α} (hp : p ∈ l) (hq : q ∈ l) (hfst : p.1 = q.1) : p = q := by
  induction l with
  | nil => cases hp
  | cons a rest ih =>
    rw [List.map_cons, List.nodup_cons] at h
    rcases List.mem_cons.mp hp with hpa | hpr <;> rcases List.mem_cons.mp hq with hqa | hqr
    · rw [hpa, hqa]
    · exfalso
      apply h.1
      rw [← hpa, hfst]
      exact List.mem_map_of_mem Prod.fst hqr
    · exfalso
      apply h.1
      rw [← hqa, ← hfst]
      exact List.mem_map_of_mem Prod.fst hpr
    · exact ih h.2 hpr hqr

/-- Concrete state for the C6 counterexample: a durable entry expiring
exactly at the sweep instant. -/
def c6State : CacheState := ⟨[], [("k", ⟨"v", 5⟩)]⟩

/-- C6 counterexample: cleanup at now = 5 leaves the durable entry with
expires_at = 5 in place (now >= expires_at, so the claim says it must be
removed), because the SQL sweep condition expires_at < now is strict. -/
theorem cacheCleanup_boundary_cex :
    alookup (cacheCleanup c6State false 5).dbCache "k" = some ⟨"v", 5⟩ := rfl

/-- C6 (amended). cleanup removes from the memory tier every entry with
expires_at <= now, but from the durable tier only the entries with
expires_at < now (strict — an entry expiring exactly at the sweep
instant survives in the durable tier); it never raises, and when the
durable sweep fails the memory sweep still takes effect. -/
theorem cacheCleanup_sweep_amended (st : CacheState) (now : Nat) (dbFails : Bool)
    (hnd : (st.memoryCache.map Prod.fst).Nodup) :
    (cacheCleanup st dbFails now).memoryCache
      = st.memoryCache.filter (fun p => decide (now < p.2.expiresAt)) ∧
    (dbFails = false →
      (cacheCleanup st dbFails now).dbCache
        = st.dbCache.filter (fun p => decide (now ≤ p.2.expiresAt))) ∧
    (dbFails = true → (cacheCleanup st dbFails now).dbCache = st.dbCache) := by
  have hmem : (cacheCleanup st dbFails now).memoryCache
      = st.memoryCache.filter (fun p => decide (now < p.2.expiresAt)) := by
    have hfold := foldl_aremove_eq_filter
      ((st.memoryCache.filter (fun p => decide (p.2.expiresAt ≤ now))).map Prod.fst)
      st.memoryCache
    have hcongr : st.memoryCache.filter
        (fun p => decide (p.1 ∉
          (st.memoryCache.filter (fun p => decide (p.2.expiresAt ≤ now))).map Prod.fst))
        = st.memoryCache.filter (fun p => decide (now < p.2.expiresAt)) := by
      apply List.filter_congr
      intro p hp
      by_cases hexp : p.2.expiresAt ≤ now
      · have hin : p.1 ∈
            (st.memoryCache.filter (fun q => decide (q.2.expiresAt ≤ now))).map Prod.fst := by
          apply List.mem_map_of_mem Prod.fst
          rw [List.mem_filter]
          exact ⟨hp, by simpa using hexp⟩
        have hnlt : ¬ now < p.2.expiresAt := by omega
        simp [hin, hnlt]
      · have hout : p.1 ∉
            (st.memoryCache.filter (fun q => decide (q.2.expiresAt ≤ now))).map Prod.fst := by
          intro hin
          rcases List.mem_map.mp hin with ⟨q, hq, hfst⟩
          rw [List.mem_filter] at hq
          have hqexp : q.2.expiresAt ≤ now := by simpa using hq.2
          have : p = q := fst_nodup_inj hnd hp hq.1 hfst.symm
          rw [this] at hexp
          exact hexp hqexp
        have hlt : now < p.2.expiresAt := by omega
        simp [hout, hlt]
    have hproj : (cacheCleanup st dbFails now).memoryCache
        = ((st.memoryCache.filter (fun p => decide (p.2.expiresAt ≤ now))).map Prod.fst).foldl
            (fun m k => aremove m k) st.memoryCache := by
      cases dbFails <;> rfl
    rw [hproj, hfold, hcongr]
  refine ⟨hmem, ?_, ?_⟩
  · intro hfl
    subst hfl
    have hpt : ∀ p ∈ st.dbCache,
        (!(decide (p.2.expiresAt < now))) = decide (now ≤ p.2.expiresAt) := by
      intro p _
      by_cases h : p.2.expiresAt < now
      · have : ¬ now ≤ p.2.expiresAt := by omega
        simp [h, this]
      · have : now ≤ p.2.expiresAt := by omega
        simp [h, this]
    have hproj2 : (cacheCleanup st false now).dbCache
        = st.dbCache.filter (fun p => !(decide (p.2.expiresAt < now))) := rfl
    rw [hproj2, List.filter_congr hpt]
  · intro hfl
    subst hfl
    rfl

/-- Concrete state for the C6 witness: two memory entries (one expired at
the sweep instant, one live) and one strictly-expired durable entry. -/
def c6WitState : CacheState :=
  ⟨[("a", ⟨.pyInt 1, 3⟩), ("b", ⟨.pyInt 2, 10⟩)], [("c", ⟨"x", 3⟩)]⟩

/-- C6 witness: the amended sweep characterisation at a concrete state,
for a working and for a failing durable store. -/
theorem cacheCleanup_sweep_amended_witness :
    (cacheCleanup c6WitState false 5).memoryCache
      = c6WitState.memoryCache.filter (fun p => decide (5 < p.2.expiresAt)) ∧
    (cacheCleanup c6WitState false 5).dbCache
      = c6WitState.dbCache.filter (fun p => decide (5 ≤ p.2.expiresAt)) ∧
    (cacheCleanup c6WitState true 5).dbCache = c6WitState.dbCache :=
  ⟨(cacheCleanup_sweep_amended c6WitState 5 false (by decide)).1,
   (cacheCleanup_sweep_amended c6WitState 5 false (by decide)).2.1 rfl,
   (cacheCleanup_sweep_amended c6WitState 5 true (by decide)).2.2 rfl⟩

/-! ### BaseLockHandler model (src/ext/base_handler.py)

The registry self._locks maps a key to an asyncio.Lock; for release_lock
and its claims only each mutex's locked bit matters, so the registry is
an association list of booleans (true = currently locked). -/

/-- BaseLockHandler.release_lock: releases only when the key is present
and its mutex is locked; an unknown or unlocked key is a no-op (the
inner RuntimeError guard is unreachable once locked() held). The
function is total: no exception escapes. -/
def releaseLock (locks : List (String × Bool)) (key : String) : List (String × Bool) :=
  match alookup locks key with
  | some true => ainsert locks key false
  | _ => locks

/-- An immediate acquire on the key succeeds exactly when its mutex is
not currently locked (asyncio.Lock.acquire fast path; acquire_lock
creates the mutex lazily when the key is unknown). -/
def lockIsFree (locks : List (String × Bool)) (key : String) : Bool :=
  match alookup locks key with
  | some true => false
  | _ => true

/-- C9. Safe double release: a second release of an unheld mutex is a
no-op, after the two releases a third party's acquire of the key
succeeds, and releasing a key unknown to the registry is a no-op; the
model is total, so no exception is raised. -/
theorem releaseLock_double_safe (locks : List (String × Bool)) (key : String) :
    releaseLock (releaseLock locks key) key = releaseLock locks key ∧
    lockIsFree (releaseLock (releaseLock locks key) key) key = true ∧
    (alookup locks key = none → releaseLock locks key = locks) := by
  have h1 : releaseLock (releaseLock locks key) key = releaseLock locks key := by
    cases h : alookup locks key with
    | none => simp [releaseLock, h]
    | some b =>
      cases b with
      | false => simp [releaseLock, h]
      | true =>
        have : alookup (ainsert locks key false) key = some false := alookup_ainsert_self _ _ _
        simp [releaseLock, h, this]
  refine ⟨h1, ?_, ?_⟩
  · rw [h1]
    cases h : alookup locks key with
    | none => simp [releaseLock, lockIsFree, h]
    | some b =>
      cases b with
      | false => simp [releaseLock, lockIsFree, h]
      | true =>
        have : alookup (ainsert locks key false) key = some false := alookup_ainsert_self _ _ _
        simp [releaseLock, lockIsFree, h, this]
  · intro h
    simp [releaseLock, h]

/-- C9 witness: at a registry holding "a" locked, releasing the unknown
key "b" twice is a no-op and leaves "b" acquirable. -/
theorem releaseLock_double_safe_witness :
    releaseLock (releaseLock [("a", true)] "b") "b" = releaseLock [("a", true)] "b" ∧
    lockIsFree (releaseLock (releaseLock [("a", true)] "b") "b") "b" = true ∧
    releaseLock [("a", true)] "b" = [("a", true)] :=
  ⟨(releaseLock_double_safe [("a", true)] "b").1,
   (releaseLock_double_safe [("a", true)] "b").2.1,
   (releaseLock_double_safe [("a", true)] "b").2.2 (by decide)⟩

/-- The three ways the awaited wait_for(lock.acquire(), timeout) inside
acquire_lock can finish. -/
inductive AwaitResult where
  | acquired
  | timedOut
  | raised (msg : String)
deriving Repr, DecidableEq

/-- Result of a Python call: a value, or an exception escaping. -/
inductive PyResult (α : Type) where
  | ok (a : α)
  | exn (msg : String)
deriving Repr, DecidableEq

/-- BaseLockHandler.acquire_lock, lines 16-38: lazily create the mutex
for the key, then await wait_for(acquire, timeout); `except TimeoutError`
logs and returns None, `except Exception` logs and returns None, success
returns the registry's mutex for the key (identified here by its key).
The registry after the call still holds the key. -/
def acquireLockRun (locks : List (String × Bool)) (key : String) (outcome : AwaitResult) :
    PyResult (Option String) × List (String × Bool) :=
  let locks1 := if (alookup locks key).isSome then locks else ainsert locks key false
  match outcome with
  | .acquired => (.ok (some key), ainsert locks1 key true)
  | .timedOut => (.ok none, locks1)
  | .raised _ => (.ok none, locks1)

/-- C8. Lock acquisition never raises to the caller: a timeout yields
None, any other acquisition error yields None, and every possible
outcome of the awaited acquire produces an ok result, never an
escaping exception. -/
theorem acquireLock_never_raises (locks : List (String × Bool)) (key msg : String) :
    (acquireLockRun locks key .timedOut).1 = .ok none ∧
    (acquireLockRun locks key (.raised msg)).1 = .ok none ∧
    ∀ outcome, ∃ r, (acquireLockRun locks key outcome).1 = .ok r := by
  refine ⟨rfl, rfl, ?_⟩
  intro outcome
  cases outcome with
  | acquired => exact ⟨some key, rfl⟩
  | timedOut => exact ⟨none, rfl⟩
  | raised m => exact ⟨none, rfl⟩

/-! ### Lock exclusivity model (C3)

BaseLockHandler.acquire_lock awaits asyncio.wait_for(lock.acquire(),
timeout) on the per-key mutex and release_lock releases it.  The claim
is about interleavings of two callers on one key, so the model is the
event-loop state of that key's asyncio.Lock (lock bit plus FIFO waiter
queue), the phase of each caller, and a discrete clock.  Transitions
are the scheduler events: the uncontended fast path of acquire, joining
the waiter queue with deadline time + timeout, the wait_for deadline
firing (acquire_lock returns None), and release handing the lock to the
head waiter. -/

/-- Phase of one caller of acquire_lock on the key. -/
inductive TaskPhase where
  | idle
  | waiting (deadline : Nat)
  | holding
  | gotNone
  | released
deriving Repr, DecidableEq

/-- Event-loop state for one key's mutex and its two callers
(named false and true). -/
structure LockSys where
  time : Nat
  locked : Bool
  queue : List Bool
  pa : TaskPhase
  pb : TaskPhase
deriving Repr, DecidableEq

/-- Phase of caller t. -/
def phase (s : LockSys) : Bool → TaskPhase
  | false => s.pa
  | true => s.pb

/-- Replace the phase of caller t. -/
def setPhase (s : LockSys) : Bool → TaskPhase → LockSys
  | false, p => { s with pa := p }
  | true, p => { s with pb := p }

/-- One event-loop transition of the two callers on the key. -/
inductive Step : LockSys → LockSys → Prop where
  | tick (s : LockSys) : Step s { s with time := s.time + 1 }
  | acquireFree (s : LockSys) (t : Bool) :
      phase s t = .idle → s.locked = false → s.queue = [] →
      Step s (setPhase { s with locked := true } t .holding)
  | acquireWait (s : LockSys) (t : Bool) (timeout : Nat) :
      phase s t = .idle → (s.locked = true ∨ s.queue ≠ []) →
      Step s (setPhase { s with queue := s.queue ++ [t] } t (.waiting (s.time + timeout)))
  | timeoutFire (s : LockSys) (t : Bool) (d : Nat) :
      phase s t = .waiting d → d ≤ s.time →
      Step s (setPhase { s with queue := s.queue.filter (fun x => !(x == t)) } t .gotNone)
  | releaseFree (s : LockSys) (t : Bool) :
      phase s t = .holding → s.queue = [] →
      Step s (setPhase { s with locked := false } t .released)
  | releaseGrant (s : LockSys) (t t2 : Bool) (rest : List Bool) :
      phase s t = .holding → s.queue = t2 :: rest →
      Step s (setPhase (setPhase { s with queue := rest } t .released) t2 .holding)

/-- The transitions available while the holder never calls release_lock:
Step without the two release constructors. -/
inductive QuietStep : LockSys → LockSys → Prop where
  | tick (s : LockSys) : QuietStep s { s with time := s.time + 1 }
  | acquireFree (s : LockSys) (t : Bool) :
      phase s t = .idle → s.locked = false → s.queue = [] →
      QuietStep s (setPhase { s with locked := true } t .holding)
  | acquireWait (s : LockSys) (t : Bool) (timeout : Nat) :
      phase s t = .idle → (s.locked = true ∨ s.queue ≠ []) →
      QuietStep s (setPhase { s with queue := s.queue ++ [t] } t (.waiting (s.time + timeout)))
  | timeoutFire (s : LockSys) (t : Bool) (d : Nat) :
      phase s t = .waiting d → d ≤ s.time →
      QuietStep s (setPhase { s with queue := s.queue.filter (fun x => !(x == t)) } t .gotNone)

/-- Both callers idle, lock free: the state in which two concurrent
acquire calls begin. -/
def lockInit : LockSys := ⟨0, false, [], .idle, .idle⟩

/-- The state just after the first caller (false) took the mutex. -/
def lockHeldA : LockSys := ⟨0, true, [], .holding, .idle⟩

/-- A concrete state where the second caller waits past its deadline. -/
def lockWaitB : LockSys := ⟨7, true, [true], .holding, .waiting 5⟩

/-- Safety invariant of the per-key lock system: a free lock has no
holder, at most one caller holds, queued callers are waiting, and the
queue has no duplicates. -/
def LockInv (s : LockSys) : Prop :=
  (s.locked = false → s.pa ≠ .holding ∧ s.pb ≠ .holding) ∧
  ¬(s.pa = .holding ∧ s.pb = .holding) ∧
  (false ∈ s.queue → ∃ d, s.pa = TaskPhase.waiting d) ∧
  (true ∈ s.queue → ∃ d, s.pb = TaskPhase.waiting d) ∧
  s.queue.Nodup

theorem lockInv_lockInit : LockInv lockInit := by
  refine ⟨fun _ => ⟨by simp [lockInit], by simp [lockInit]⟩, ?_, ?_, ?_, ?_⟩
  · intro h
    simp [lockInit] at h
  · intro h
    simp [lockInit] at h
  · intro h
    simp [lockInit] at h
  · simp [lockInit]

theorem lockInv_step {s s2 : LockSys} (hinv : LockInv s) (hstep : Step s s2) : LockInv s2 := by
  obtain ⟨hfree, hexcl, hqa, hqb, hnd⟩ := hinv
  cases hstep with
  | tick => exact ⟨hfree, hexcl, hqa, hqb, hnd⟩
  | acquireFree t hidle hlocked hq =>
    have hns := hfree hlocked
    cases t with
    | false =>
      refine ⟨?_, ?_, ?_, ?_, ?_⟩
      · intro h
        simp [setPhase] at h
      · intro h
        exact hns.2 h.2
      · intro hmem
        exact absurd hmem (by simp [setPhase, hq])
      · intro hmem
        exact absurd hmem (by simp [setPhase, hq])
      · simp [setPhase, hq]
    | true =>
      refine ⟨?_, ?_, ?_, ?_, ?_⟩
      · intro h
        simp [setPhase] at h
      · intro h
        exact hns.1 h.1
      · intro hmem
        exact absurd hmem (by simp [setPhase, hq])
      · intro hmem
        exact absurd hmem (by simp [setPhase, hq])
      · simp [setPhase, hq]
  | acquireWait t timeout hidle hcont =>
    cases t with
    | false =>
      have hpa : s.pa = .idle := hidle
      have hfq : false ∉ s.queue := by
        intro hmem
        rcases hqa hmem with ⟨d, hd⟩
        rw [hpa] at hd
        simp at hd
      refine ⟨?_, ?_, ?_, ?_, ?_⟩
      · intro h
        have h2 : s.locked = false := h
        exact ⟨by simp [setPhase], (hfree h2).2⟩
      · intro h
        exact absurd h.1 (by simp [setPhase])
      · intro _
        exact ⟨s.time + timeout, rfl⟩
      · intro hmem
        have hmem2 : true ∈ s.queue := by
          rcases List.mem_append.mp hmem with h | h
          · exact h
          · simp at h
        exact hqb hmem2
      · show (s.queue ++ [false]).Nodup
        refine (List.nodup_append).mpr ⟨hnd, List.nodup_singleton _, ?_⟩
        intro x hx hx2
        rw [List.mem_singleton] at hx2
        subst hx2
        exact hfq hx
    | true =>
      have hpb : s.pb = .idle := hidle
      have htq : true ∉ s.queue := by
        intro hmem
        rcases hqb hmem with ⟨d, hd⟩
        rw [hpb] at hd
        simp at hd
      refine ⟨?_, ?_, ?_, ?_, ?_⟩
      · intro h
        have h2 : s.locked = false := h
        exact ⟨(hfree h2).1, by simp [setPhase]⟩
      · intro h
        exact absurd h.2 (by simp [setPhase])
      · intro hmem
        have hmem2 : false ∈ s.queue := by
          rcases List.mem_append.mp hmem with h | h
          · exact h
          · simp at h
        exact hqa hmem2
      · intro _
        exact ⟨s.time + timeout, rfl⟩
      · show (s.queue ++ [true]).Nodup
        refine (List.nodup_append).mpr ⟨hnd, List.nodup_singleton _, ?_⟩
        intro x hx hx2
        rw [List.mem_singleton] at hx2
        subst hx2
        exact htq hx
  | timeoutFire t d hw hd =>
    cases t with
    | false =>
      refine ⟨?_, ?_, ?_, ?_, ?_⟩
      · intro h
        have h2 : s.locked = false := h
        exact ⟨by simp [setPhase], (hfree h2).2⟩
      · intro h
        exact absurd h.1 (by simp [setPhase])
      · intro hmem
        have hm := List.mem_filter.mp hmem
        simp at hm
      · intro hmem
        have hm := List.mem_filter.mp hmem
        exact hqb hm.1
      · exact List.Nodup.filter _ hnd
    | true =>
      refine ⟨?_, ?_, ?_, ?_, ?_⟩
      · intro h
        have h2 : s.locked = false := h
        exact ⟨(hfree h2).1, by simp [setPhase]⟩
      · intro h
        exact absurd h.2 (by simp [setPhase])
      · intro hmem
        have hm := List.mem_filter.mp hmem
        exact hqa hm.1
      · intro hmem
        have hm := List.mem_filter.mp hmem
        simp at hm
      · exact List.Nodup.filter _ hnd
  | releaseFree t hold hq =>
    cases t with
    | false =>
      have hpa : s.pa = .holding := hold
      have hnb : s.pb ≠ .holding := fun hb => hexcl ⟨hpa, hb⟩
      refine ⟨?_, ?_, ?_, ?_, ?_⟩
      · intro _
        exact ⟨by simp [setPhase], hnb⟩
      · intro h
        exact absurd h.1 (by simp [setPhase])
      · intro hmem
        exact absurd hmem (by simp [setPhase, hq])
      · intro hmem
        exact absurd hmem (by simp [setPhase, hq])
      · simp [setPhase, hq]
    | true =>
      have hpb : s.pb = .holding := hold
      have hna : s.pa ≠ .holding := fun ha => hexcl ⟨ha, hpb⟩
      refine ⟨?_, ?_, ?_, ?_, ?_⟩
      · intro _
        exact ⟨hna, by simp [setPhase]⟩
      · intro h
        exact absurd h.2 (by simp [setPhase])
      · intro hmem
        exact absurd hmem (by simp [setPhase, hq])
      · intro hmem
        exact absurd hmem (by simp [setPhase, hq])
      · simp [setPhase, hq]
  | releaseGrant t t2 rest hold hq =>
    cases t with
    | false =>
      have hpa : s.pa = .holding := hold
      cases t2 with
      | false =>
        have hmem : false ∈ s.queue := by
          rw [hq]
          exact List.mem_cons_self _ _
        rcases hqa hmem with ⟨d0, hd0⟩
        rw [hpa] at hd0
        simp at hd0
      | true =>
        rw [hq] at hnd
        have hrest := List.nodup_cons.mp hnd
        refine ⟨?_, ?_, ?_, ?_, ?_⟩
        · intro h
          have h2 : s.locked = false := h
          exact absurd hpa (hfree h2).1
        · intro h
          exact absurd h.1 (by simp [setPhase])
        · intro hmem
          have hm2 : false ∈ s.queue := by
            rw [hq]
            exact List.mem_cons_of_mem _ hmem
          rcases hqa hm2 with ⟨d0, hd0⟩
          rw [hpa] at hd0
          simp at hd0
        · intro hmem
          exact absurd hmem hrest.1
        · exact hrest.2
    | true =>
      have hpb : s.pb = .holding := hold
      cases t2 with
      | true =>
        have hmem : true ∈ s.queue := by
          rw [hq]
          exact List.mem_cons_self _ _
        rcases hqb hmem with ⟨d0, hd0⟩
        rw [hpb] at hd0
        simp at hd0
      | false =>
        rw [hq] at hnd
        have hrest := List.nodup_cons.mp hnd
        refine ⟨?_, ?_, ?_, ?_, ?_⟩
        · intro h
          have h2 : s.locked = false := h
          exact absurd hpb (hfree h2).2
        · intro h
          exact absurd h.2 (by simp [setPhase])
        · intro hmem
          exact absurd hmem hrest.1
        · intro hmem
          have hm2 : true ∈ s.queue := by
            rw [hq]
            exact List.mem_cons_of_mem _ hmem
          rcases hqb hm2 with ⟨d0, hd0⟩
          rw [hpb] at hd0
          simp at hd0
        · exact hrest.2

/-- Invariant of executions in which the holder (caller false) never
releases: it keeps holding, the lock stays taken, and the other caller
never holds. -/
def HeldQuietInv (s : LockSys) : Prop :=
  s.pa = .holding ∧ s.locked = true ∧ s.pb ≠ .holding

theorem heldQuietInv_step {s s2 : LockSys} (h : HeldQuietInv s) (hstep : QuietStep s s2) :
    HeldQuietInv s2 := by
  obtain ⟨hpa, hl, hnb⟩ := h
  cases hstep with
  | tick => exact ⟨hpa, hl, hnb⟩
  | acquireFree t hidle hlocked hq =>
    rw [hl] at hlocked
    simp at hlocked
  | acquireWait t timeout hidle hcont =>
    cases t with
    | false =>
      have h2 : s.pa = .idle := hidle
      rw [hpa] at h2
      simp at h2
    | true =>
      exact ⟨hpa, hl, by simp [setPhase]⟩
  | timeoutFire t d hw hd =>
    cases t with
    | false =>
      have h2 : s.pa = .waiting d := hw
      rw [hpa] at h2
      simp at h2
    | true =>
      exact ⟨hpa, hl, by simp [setPhase]⟩

/-- C3. Lock exclusivity and bounded wait on one key: (i) in every state
reachable from two idle callers, at most one caller holds the mutex;
(ii) in every execution in which the holder never calls release_lock,
the second caller never comes to hold it; (iii) once the second caller
is waiting and its wait_for deadline has passed, the timeout transition
is enabled and leaves its acquire call returning None. -/
theorem lock_exclusive_bounded_wait :
    (∀ s, Relation.ReflTransGen Step lockInit s →
        ¬(s.pa = TaskPhase.holding ∧ s.pb = TaskPhase.holding)) ∧
    (∀ s, Relation.ReflTransGen QuietStep lockHeldA s → s.pb ≠ TaskPhase.holding) ∧
    (∀ s d, s.pb = TaskPhase.waiting d → d ≤ s.time →
        ∃ s2, Step s s2 ∧ s2.pb = TaskPhase.gotNone) := by
  refine ⟨?_, ?_, ?_⟩
  · intro s hreach
    have hinv : LockInv s := by
      induction hreach with
      | refl => exact lockInv_lockInit
      | tail h1 h2 ih => exact lockInv_step ih h2
    exact hinv.2.1
  · intro s hreach
    have hinv : HeldQuietInv s := by
      induction hreach with
      | refl => exact ⟨rfl, rfl, by simp [lockHeldA]⟩
      | tail h1 h2 ih => exact heldQuietInv_step ih h2
    exact hinv.2.2
  · intro s d hw hd
    exact ⟨setPhase { s with queue := s.queue.filter (fun x => !(x == true)) } true .gotNone,
      Step.timeoutFire s true d hw hd, rfl⟩

/-- C3 witness: exclusivity at the initial state, no second holder at
the held state, and the enabled timeout transition at a concrete
overdue waiting state. -/
theorem lock_exclusive_bounded_wait_witness :
    ¬(lockInit.pa = TaskPhase.holding ∧ lockInit.pb = TaskPhase.holding) ∧
    lockHeldA.pb ≠ TaskPhase.holding ∧
    (∃ s2, Step lockWaitB s2 ∧ s2.pb = TaskPhase.gotNone) :=
  ⟨lock_exclusive_bounded_wait.1 lockInit Relation.ReflTransGen.refl,
   lock_exclusive_bounded_wait.2.1 lockHeldA Relation.ReflTransGen.refl,
   lock_exclusive_bounded_wait.2.2 lockWaitB 5 rfl (by decide)⟩

end StoreDC
